import Mathlib

set_option maxRecDepth 100000

/-!
Shallow embedding of the Ecosvery remote-data-access core:
the UniProt species-list parser and deduplicated loader
(`src/services/uniprotSpecies.ts`, given as `src/unnamed/part_000`)
and the resilient-fetch / TTL-cache helpers (`src/src/utils/apiHelpers.ts`).

Strings are modelled as `List Char` (`Str`); JavaScript's `string.split`,
`trim`, `startsWith`, `includes` and the two regular expressions used by the
parser are embedded as executable functions on character lists.  JS `Map`
objects are modelled as association lists with insert-or-replace update.
Asynchronous I/O is modelled by passing the outcome of each external call
(fetch responses, session-storage contents, clock readings) as explicit
arguments; the cooperative single-flight behaviour of the loader is modelled
as an interleaving of atomic steps between `await` points.
-/

/-- Characters treated as whitespace by the embedding of JS `\s`, `trim`
and `toLowerCase`-adjacent helpers (ASCII fragment of the JS classes;
the species-list source is ASCII). -/
def wsChar (c : Char) : Bool :=
  c = ' ' || c = '\t' || c = '\n' || c = '\r' || c = '\x0b' || c = '\x0c'

/-- Strings as character lists. -/
abbrev Str := List Char

/-- JS `text.split('\n')` on a character list, accumulator form. -/
def splitLinesAux : List Char → List Char → List Str
  | [], acc => [acc.reverse]
  | c :: rest, acc =>
    if c = '\n' then acc.reverse :: splitLinesAux rest []
    else splitLinesAux rest (c :: acc)

/-- JS `text.split('\n')`. -/
def splitLines (text : Str) : List Str :=
  splitLinesAux text []

/-- JS `String.prototype.trim` (drop whitespace at both ends). -/
def trimChars (s : Str) : Str :=
  ((s.dropWhile wsChar).reverse.dropWhile wsChar).reverse

/-- JS `line.startsWith(pat)`: `pat` begins the list. -/
def listStartsWith : Str → Str → Bool
  | [], _ => true
  | _ :: _, [] => false
  | p :: ps, c :: cs => p = c && listStartsWith ps cs

/-- JS `line.includes(pat)`: `pat` occurs contiguously somewhere in the list. -/
def strContains (hay pat : Str) : Bool :=
  listStartsWith pat hay ||
    (match hay with
     | [] => false
     | _ :: rest => strContains rest pat)

/-- Character class `[A-Z0-9]` of the record-header regex. -/
def codeChar (c : Char) : Bool :=
  ('A' ≤ c && c ≤ 'Z') || ('0' ≤ c && c ≤ '9')

/-- Character class `[VEBAO]` of the record-header regex. -/
def kindChar (c : Char) : Bool :=
  c = 'V' || c = 'E' || c = 'B' || c = 'A' || c = 'O'

/-- Character class `\d`. -/
def digitChar (c : Char) : Bool :=
  '0' ≤ c && c ≤ '9'

/-- Consume exactly `n` characters satisfying `p`. -/
def expectN (p : Char → Bool) : Nat → Str → Option Str
  | 0, cs => some cs
  | n + 1, [] => (fun _ => none) n
  | n + 1, c :: cs => if p c then expectN p n cs else none

/-- Consume one or more characters satisfying `p` (maximal munch; the
regex contexts where this is used are follow-disjoint, so greedy matching
with no backtracking is equivalent). -/
def expectMany1 (p : Char → Bool) : Str → Option Str
  | [] => none
  | c :: cs => if p c then some (cs.dropWhile p) else none

/-- Consume a single character satisfying `p`. -/
def expectOne (p : Char → Bool) : Str → Option Str
  | [] => none
  | c :: cs => if p c then some cs else none

/-- JS regex test `/^[A-Z0-9]{5}\s+[VEBAO]\s+\d+:/` used to recognise a
record header line (`line.match(...)` truthiness). -/
def headerMatch (line : Str) : Bool :=
  (do
    let r1 ← expectN codeChar 5 line
    let r2 ← expectMany1 wsChar r1
    let r3 ← expectOne kindChar r2
    let r4 ← expectMany1 wsChar r3
    let r5 ← expectMany1 digitChar r4
    expectOne (fun c => c = ':') r5).isSome

/-- Matches the regex tail `[^)]*\)` against the whole remaining input:
the input's final character is `)` and no earlier `)` occurs. -/
def annotBody : Str → Bool
  | [] => false
  | c :: rest =>
    match rest with
    | [] => c = ')'
    | _ :: _ => c ≠ ')' && annotBody rest

/-- Matches the optional regex tail `(?:\s*\([^)]*\))?$` against the whole
remaining input: either empty, or whitespace then a `(...)` group with no
inner `)` ending the input. -/
def tailAnnot (w : Str) : Bool :=
  match w with
  | [] => true
  | _ :: _ =>
    match w.dropWhile wsChar with
    | '(' :: mid => annotBody mid
    | _ => false

/-- Character class `[^()]`. -/
def parenFree (c : Char) : Bool :=
  c ≠ '(' && c ≠ ')'

/-- Lazy capture `([^()]+?)` followed by `(?:\s*\([^)]*\))?$`: the shortest
non-empty paren-free prefix of the input whose remainder matches the
optional-annotation tail.  `acc` holds the capture built so far. -/
def lazyName (acc : Str) : Str → Option Str
  | [] => none
  | c :: rest =>
    if parenFree c then
      let acc' := acc ++ [c]
      if tailAnnot rest then some acc' else lazyName acc' rest
    else none

/-- JS `line.match(/N=([^()]+?)(?:\s*\([^)]*\))?$/)`: leftmost occurrence of
`N=` from which the lazy capture succeeds; returns capture group 1. -/
def findNMatch : Str → Option Str
  | [] => none
  | c :: rest =>
    if c = 'N' then
      match rest with
      | '=' :: rest2 =>
        (match lazyName [] rest2 with
         | some captured => some captured
         | none => findNMatch rest)
      | _ => findNMatch rest
    else findNMatch rest

/-- The parsed species map: scientific name to common name, modelling a JS
`Map<string, string>` as an association list with unique keys. -/
abbrev SpecMap := List (Str × Str)

/-- JS `Map.prototype.get` (as an `Option`). -/
def mapGet : SpecMap → Str → Option Str
  | [], _ => none
  | (k', v') :: rest, k => if k' = k then some v' else mapGet rest k

/-- JS `Map.prototype.set`: replace the binding of an existing key in place,
else append a new binding. -/
def mapSet : SpecMap → Str → Str → SpecMap
  | [], k, v => [(k, v)]
  | (k', v') :: rest, k, v =>
    if k' = k then (k, v) :: rest else (k', v') :: mapSet rest k v

/-- Marker substring opening the data section. -/
def realMarker : Str := ("(1) Real organism codes").data

/-- Marker substring terminating the parse. -/
def virtualMarker : Str := ("(2) Virtual codes").data

/-- The literal `N=`. -/
def nMark : Str := ("N=").data

/-- The literal `C=`. -/
def cMark : Str := ("C=").data

/-- The literal `S=`. -/
def sMark : Str := ("S=").data

/-- Separator-line prefixes `_____` and `===`. -/
def sepUnderscore : Str := ("_____").data

/-- Separator-line prefix `===`. -/
def sepEquals : Str := ("===").data

/-- The `N=` block of the loop body: on a record-header line containing
`N=`, replace the sticky scientific name with the regex capture (trimmed);
if the capture fails, or on any other line, keep the previous sticky name. -/
def nUpdate (line : Str) (cur : Str) : Str :=
  if headerMatch line = true ∧ strContains line nMark = true then
    match findNMatch line with
    | some captured => trimChars captured
    | none => cur
  else cur

/-- The `C=` block of the loop body: when the trimmed line starts with `C=`
and a sticky scientific name is present, record the trimmed text after `C=`
under the sticky name (if that text is non-empty); the sticky name is kept. -/
def cUpdate (trimmedLine : Str) (m : SpecMap) (cur1 : Str) : SpecMap × Str :=
  if listStartsWith cMark trimmedLine = true ∧ cur1 ≠ [] then
    let commonName := trimChars (List.drop 2 trimmedLine)
    if commonName ≠ [] then (mapSet m cur1 commonName, cur1) else (m, cur1)
  else (m, cur1)

/-- The `S=` block of the loop body: on a synonym line, clear the sticky
name exactly when no common name has been recorded for it yet. -/
def sUpdate (trimmedLine : Str) (p : SpecMap × Str) : Str :=
  if listStartsWith sMark trimmedLine = true ∧ p.2 ≠ [] then
    if mapGet p.1 p.2 = none then [] else p.2
  else p.2

/-- One in-data-section line of `parseUniProtSpecList`'s loop body after the
skip checks: the `N=` header update, the `C=` recording, and the `S=`
synonym reset, applied in the source's order to `(map, currentScientificName)`. -/
def processLine (line : Str) (m : SpecMap) (cur : Str) : SpecMap × Str :=
  let trimmedLine := trimChars line
  let afterC := cUpdate trimmedLine m (nUpdate line cur)
  (afterC.1, sUpdate trimmedLine afterC)

/-- The line loop of `parseUniProtSpecList`: section gating, early `break`
on the virtual-codes marker, separator/blank skipping, then `processLine`. -/
def parseLines : List Str → SpecMap → Str → Bool → SpecMap
  | [], m, _, _ => m
  | line :: rest, m, cur, inData =>
    if strContains line realMarker = true then parseLines rest m cur true
    else if strContains line virtualMarker = true then m
    else if inData = false then parseLines rest m cur inData
    else if (listStartsWith sepUnderscore line || listStartsWith sepEquals line) = true then
      parseLines rest m cur inData
    else if trimChars line = [] then parseLines rest m cur inData
    else
      let p := processLine line m cur
      parseLines rest p.1 p.2 inData

/-- `parseUniProtSpecList` from the source: split on newlines and run the
stateful line loop from an empty map, empty sticky name, outside the data
section. -/
def parseUniProtSpecList (text : Str) : SpecMap :=
  parseLines (splitLines text) [] [] false

/-! ## Resilient fetch (`src/src/utils/apiHelpers.ts`, `fetchWithRetry`)

One attempt of the retry loop either yields a `Response` (abstracted to its
HTTP status; `Response.ok` is derived as status 200–299) or throws
(network failure or timeout).  The environment is a function from the
0-indexed attempt number to that attempt's outcome. -/

/-- Outcome of one `fetchWithTimeout` attempt. -/
inductive AttemptOutcome
  | resp (status : Nat)
  | thrown
deriving DecidableEq

/-- The error `fetchWithRetry` can end up throwing: an `ApiError` built from
a response (carrying its status), the error thrown by the attempt itself, or
the defensive `ApiError('Unknown error')`. -/
inductive RetryError
  | apiError (status : Nat)
  | thrownError
  | unknownError
deriving DecidableEq

deriving instance DecidableEq for Except

/-- Observable result of a `fetchWithRetry` call: how many attempts ran, the
inter-attempt delays in order, and either the accepted response's status or
the finally-thrown error. -/
structure RetryResult where
  attemptsMade : Nat
  delays : List Nat
  result : Except RetryError Nat
deriving DecidableEq

/-- `DEFAULT_RETRY_ATTEMPTS` from the source. -/
def DEFAULT_RETRY_ATTEMPTS : Nat := 3

/-- `RETRY_DELAY_MS` from the source. -/
def RETRY_DELAY_MS : Nat := 1000

/-- `Response.ok`: status in the 2xx range. -/
def respOk (status : Nat) : Bool :=
  200 ≤ status && status < 300

/-- The source's acceptance test
`response.ok || (response.status >= 400 && response.status < 500)`. -/
def acceptResponse (status : Nat) : Bool :=
  respOk status || (400 ≤ status && status < 500)

/-- The `for (let attempt = 0; attempt < maxRetries; attempt++)` loop of
`fetchWithRetry`, with the remaining iteration count as first argument
(`remaining = maxRetries - attempt`); a delay of `RETRY_DELAY_MS * 2 ^ attempt`
is recorded exactly when a further attempt is allowed
(`attempt < maxRetries - 1`, i.e. `0 < r` below). -/
def retryLoop (outcomes : Nat → AttemptOutcome) :
    Nat → Nat → Option RetryError → List Nat → RetryResult
  | 0, attempt, lastError, delays =>
    ⟨attempt, delays, .error (lastError.getD .unknownError)⟩
  | r + 1, attempt, _, delays =>
    match outcomes attempt with
    | .resp s =>
      if acceptResponse s then ⟨attempt + 1, delays, .ok s⟩
      else if 0 < r then
        retryLoop outcomes r (attempt + 1) (some (.apiError s))
          (delays ++ [RETRY_DELAY_MS * 2 ^ attempt])
      else retryLoop outcomes r (attempt + 1) (some (.apiError s)) delays
    | .thrown =>
      if 0 < r then
        retryLoop outcomes r (attempt + 1) (some .thrownError)
          (delays ++ [RETRY_DELAY_MS * 2 ^ attempt])
      else retryLoop outcomes r (attempt + 1) (some .thrownError) delays

/-- `fetchWithRetry(url, options, maxRetries)` under an environment giving
each attempt's outcome. -/
def fetchWithRetry (outcomes : Nat → AttemptOutcome) (maxRetries : Nat) : RetryResult :=
  retryLoop outcomes maxRetries 0 none []

/-! ## TTL cache (`src/src/utils/apiHelpers.ts`, `getCachedData`/`setCachedData`)

`sessionStorage` is modelled as a partial map from keys to raw cells; a raw
cell is either text `JSON.parse` rejects (`malformed`) or a parsed envelope
`{value, _timestamp, _ttl}` whose `_timestamp`/`_ttl` fields may be absent.
JS truthiness of `data._timestamp` and `data._ttl || Infinity` make both an
absent field and a `0` field behave alike (no expiry check / unbounded ttl).
`Date.now()` readings are passed in as `now`. -/

/-- A raw `sessionStorage` cell as seen by `getCachedData`. -/
inductive RawCell (V : Type)
  | malformed
  | entry (value : V) (timestamp : Option Nat) (ttl : Option Nat)
deriving DecidableEq

/-- The session store: keys to raw cells. -/
def CStore (K V : Type) := K → Option (RawCell V)

/-- `sessionStorage.setItem` (insert or overwrite). -/
def storeSet [DecidableEq K] (st : CStore K V) (key : K) (c : RawCell V) : CStore K V :=
  fun k => if k = key then some c else st k

/-- `sessionStorage.removeItem`. -/
def storeRemove [DecidableEq K] (st : CStore K V) (key : K) : CStore K V :=
  fun k => if k = key then none else st k

/-- `getCachedData<T>(key)`: returns the read value (if any) and the store
after the read (expiry proactively removes the stale entry; every failure
path returns no value rather than an error). -/
def getCachedData [DecidableEq K] (st : CStore K V) (key : K) (now : Nat) :
    Option V × CStore K V :=
  match st key with
  | none => (none, st)
  | some .malformed => (none, st)
  | some (.entry v ts ttl) =>
    match ts with
    | none => (some v, st)
    | some t =>
      if t = 0 then (some v, st)
      else
        let age : Int := (now : Int) - (t : Int)
        match ttl with
        | none => (some v, st)
        | some tt =>
          if tt = 0 then (some v, st)
          else if age > (tt : Int) then (none, storeRemove st key)
          else (some v, st)

/-- `setCachedData<T>(key, value, options)`: write the envelope
`{value, _timestamp: Date.now(), _ttl: options.ttl}`. -/
def setCachedData [DecidableEq K] (st : CStore K V) (key : K) (value : V)
    (ttl : Option Nat) (now : Nat) : CStore K V :=
  storeSet st key (.entry value (some now) ttl)

/-! ## Deduplicated loader (`src/unnamed/part_000`, `loadUniProtSpeciesList`)

The network call is abstracted to its outcome; `console.*` side effects are
dropped.  The loader's session-storage cache is a `CStore` keyed by the
string `uniprot_species_list` and valued at the serialized entry list. -/

/-- Outcome of the loader's `fetchWithTimeout` call: thrown (network failure
or 60 s timeout), or a response with its `ok` flag, status and body text. -/
inductive FetchOutcome
  | thrown
  | resp (ok : Bool) (status : Nat) (text : Str)

/-- The failure the `try` block of `loadUniProtSpeciesList` can raise before
the `catch` downgrades it. -/
inductive LoadError
  | fetchFailed
  | httpError (status : Nat)
  | emptyOrCorrupt
  | parseEmpty
deriving DecidableEq

/-- `UNIPROT_CACHE_TTL` exactly as written in the source
(its comment reads: Cache TTL: 24 hours). -/
def UNIPROT_CACHE_TTL : Nat := 500 * 60 * 60 * 1000

/-- The loader's cache key. -/
def uniprotKey : Str := ("uniprot_species_list").data

/-- `new Map(entries)`: fold the entry list through `Map.prototype.set`. -/
def mapFromEntries (l : List (Str × Str)) : SpecMap :=
  l.foldl (fun m p => mapSet m p.1 p.2) []

/-- The body of the loader's `try` block after a cache miss: throw on a
thrown fetch, a non-ok response, an empty/too-small body, or a parse with
zero entries; otherwise yield the parsed map. -/
def loadBody (f : FetchOutcome) : Except LoadError SpecMap :=
  match f with
  | .thrown => .error .fetchFailed
  | .resp ok status text =>
    if ok = false then .error (.httpError status)
    else if text = [] ∨ text.length < 1000 then .error .emptyOrCorrupt
    else
      let speciesMap := parseUniProtSpecList text
      if speciesMap.length = 0 then .error .parseEmpty
      else .ok speciesMap

/-- `loadUniProtSpeciesList`: session-cache check first; on a miss run the
`try` body, persisting a success under `UNIPROT_CACHE_TTL` and downgrading
any failure to the empty map.  Returns the map together with the session
store after the call. -/
def loadUniProtSpeciesList (st : CStore Str SpecMap) (now : Nat) (f : FetchOutcome) :
    SpecMap × CStore Str SpecMap :=
  match getCachedData st uniprotKey now with
  | (some cached, st1) => (mapFromEntries cached, st1)
  | (none, st1) =>
    match loadBody f with
    | .ok speciesMap =>
      (speciesMap, setCachedData st1 uniprotKey speciesMap (some UNIPROT_CACHE_TTL) now)
    | .error _ => ([], st1)

/-! ## Lookup contract (`getCommonName` / `getCommonNames`)

The shared resolution logic of `getCommonName` and `getCommonNames` once the
map is loaded:
`speciesCache.get(name) || speciesCache.get(name.toLowerCase()) || ''`.
An absent key yields `undefined` and an empty string is falsy, so both fall
through to the next alternative. -/

/-- JS `name.toLowerCase()` (ASCII; species names are ASCII). -/
def toLowerStr (s : Str) : Str :=
  s.map Char.toLower

/-- JS `a || b` on strings: `a` unless `a` is empty/absent. -/
def jsOrStr (a b : Str) : Str :=
  if a = [] then b else a

/-- `Map.prototype.get` with `undefined` read back as the falsy empty string. -/
def mapGetD (m : SpecMap) (k : Str) : Str :=
  (mapGet m k).getD []

/-- The resolution expression of `getCommonName`/`getCommonNames`: exact
lookup, then lookup of the lowercased query, then `''`. -/
def lookupCommonName (speciesCache : SpecMap) (scientificName : Str) : Str :=
  jsOrStr (mapGetD speciesCache scientificName)
    (jsOrStr (mapGetD speciesCache (toLowerStr scientificName)) [])

/-- `getCommonNames(scientificNames)` once loaded: batch the resolution,
keeping only names whose resolved common name is non-empty. -/
def getCommonNames (speciesCache : SpecMap) (scientificNames : List Str) : SpecMap :=
  scientificNames.foldl
    (fun results name =>
      let commonName := lookupCommonName speciesCache name
      if commonName ≠ [] then mapSet results name commonName else results) []

/-! ## Single-flight loader state (`speciesCache` / `cachePromise` module state)

JavaScript's scheduler is cooperative: the code between a call's entry and
its first `await` runs atomically.  We model each concurrent caller of
`getCommonName`/`getCommonNames`/`preloadUniProtData` by its phase, and the
module state by the in-memory map (`speciesCache`), whether a shared pending
promise exists (`cachePromise !== null`), and how many times
`loadUniProtSpeciesList` was invoked.  `M` is the map the single load
resolves to.  A schedule is a list of events: an atomic caller step, or the
resolution of the pending load (which installs the map, after which awakened
callers read it). -/

/-- Phase of one concurrent caller. -/
inductive CallerPhase
  | start
  | waiting
  | done (result : SpecMap)
deriving DecidableEq

/-- Whether a caller has returned. -/
def phaseDone : CallerPhase → Bool
  | .done _ => true
  | _ => false

/-- Module-level state plus the callers' phases. -/
structure SFState where
  speciesCache : Option SpecMap
  cachePending : Bool
  loadCount : Nat
  callers : List CallerPhase
deriving DecidableEq

/-- A schedule event: caller `i` runs to its next suspension point, or the
in-flight load resolves. -/
inductive SFEvent
  | caller (i : Nat)
  | resolve
deriving DecidableEq

/-- One atomic step of caller `i`: at entry it returns at once when the map
is loaded, joins the shared pending promise when one exists, and otherwise
installs the shared promise (starting the single load) before yielding; a
waiting caller resumes only after resolution, reading the installed map. -/
def stepCaller (s : SFState) (i : Nat) : SFState :=
  match s.callers.get? i with
  | none => s
  | some .start =>
    match s.speciesCache with
    | some m => { s with callers := s.callers.set i (.done m) }
    | none =>
      if s.cachePending then { s with callers := s.callers.set i .waiting }
      else
        { s with cachePending := true, loadCount := s.loadCount + 1,
                 callers := s.callers.set i .waiting }
  | some .waiting =>
    match s.speciesCache with
    | some m => { s with callers := s.callers.set i (.done m) }
    | none => s
  | some (.done _) => s

/-- Resolution of the in-flight load with result `M`: installs the map and
clears the pending promise; a no-op when no load is pending. -/
def stepResolve (M : SpecMap) (s : SFState) : SFState :=
  if s.cachePending then { s with speciesCache := some M, cachePending := false }
  else s

/-- Apply one schedule event. -/
def applyEvent (M : SpecMap) (s : SFState) : SFEvent → SFState
  | .caller i => stepCaller s i
  | .resolve => stepResolve M s

/-- Run a schedule from the fresh module state with `K` callers, none of
which has yet run and before any load has ever started. -/
def runEvents (M : SpecMap) (K : Nat) (evs : List SFEvent) : SFState :=
  evs.foldl (applyEvent M) ⟨none, false, 0, List.replicate K .start⟩

/-- The single-flight invariant: the module is in one of its three loader
states — never loaded and never started; exactly one load in flight with
every caller still at entry or parked on the shared promise; or loaded with
the single load's map installed and every caller at entry, parked, or done
with that same map.  The caller count is preserved throughout. -/
def SFInv (M : SpecMap) (K : Nat) (s : SFState) : Prop :=
  s.callers.length = K ∧
  ((s.loadCount = 0 ∧ s.speciesCache = none ∧ s.cachePending = false ∧
      ∀ c ∈ s.callers, c = .start) ∨
   (s.loadCount = 1 ∧ s.cachePending = true ∧ s.speciesCache = none ∧
      ∀ c ∈ s.callers, c = .start ∨ c = .waiting) ∨
   (s.loadCount = 1 ∧ s.cachePending = false ∧ s.speciesCache = some M ∧
      ∀ c ∈ s.callers, c = .start ∨ c = .waiting ∨ c = .done M))

/-! ## Concrete record texts used to exercise the parser and loader -/

/-- The spec's parser edge case: a record with `N=` and `S=` lines but no
`C=` line, placed inside the data section. -/
def sampleNoCText : Str :=
  ("(1) Real organism codes\nAAAAA V 000001: N=Testus exemplus\n      S=Testus synonymus\n").data

/-- The same record shape with an explicit `C=` line. -/
def sampleWithCText : Str :=
  ("(1) Real organism codes\nAAAAA V 000001: N=Testus exemplus\n      C=Common tester\n").data

/-- Padding so a source text passes the `text.length < 1000` corruption
check (skipped by the parser as an unparseable non-record line). -/
def fillerLine : Str := List.replicate 980 'x'

/-- A well-formed source text of more than 1000 characters whose parse has
one entry: a successful load input. -/
def sampleBigText : Str :=
  ("(1) Real organism codes\nAAAAA V 000001: N=Testus exemplus\n      C=Common tester\n").data
    ++ fillerLine ++ [Char.ofNat 10]

/-! ## Helper lemmas -/

/-- `mapSet` rewrites exactly the binding of the written key. -/
theorem mapGet_mapSet (m : SpecMap) (k v k2 : Str) :
    mapGet (mapSet m k v) k2 = if k = k2 then some v else mapGet m k2 := by
  induction m with
  | nil => by_cases h : k = k2 <;> simp [mapSet, mapGet, h]
  | cons p rest ih =>
    obtain ⟨k', v'⟩ := p
    by_cases h : k' = k
    · subst h
      by_cases h2 : k' = k2 <;> simp [mapSet, mapGet, h2]
    · by_cases h2 : k' = k2
      · subst h2
        have hne : ¬ k = k' := fun e => h e.symm
        simp [mapSet, h, mapGet, hne]
      · simp [mapSet, h, mapGet, h2, ih]

/-- A binding surviving `processLine` was already in the map, or was written
by the line's `C=` branch (whose value is the trimmed text after `C=`). -/
theorem processLine_lookup (line : Str) (m : SpecMap) (cur k v : Str)
    (h : mapGet (processLine line m cur).1 k = some v) :
    mapGet m k = some v ∨
      (listStartsWith cMark (trimChars line) = true ∧
        v = trimChars (List.drop 2 (trimChars line))) := by
  unfold processLine cUpdate at h
  dsimp only at h
  split at h
  next hc =>
    split at h
    next hcn =>
      dsimp only at h
      rw [mapGet_mapSet] at h
      split at h
      next => exact Or.inr ⟨hc.1, (Option.some.inj h).symm⟩
      next => exact Or.inl h
    next => exact Or.inl h
  next => exact Or.inl h

/-- A binding of the parse result was already in the starting map, or was
written while handling some input line whose trimmed form starts with `C=`,
with exactly the trimmed text after the `C=` as its value. -/
theorem parseLines_lookup (lines : List Str) (m : SpecMap) (cur : Str) (inData : Bool)
    (k v : Str) (h : mapGet (parseLines lines m cur inData) k = some v) :
    mapGet m k = some v ∨
      ∃ line, line ∈ lines ∧ listStartsWith cMark (trimChars line) = true ∧
        v = trimChars (List.drop 2 (trimChars line)) := by
  induction lines generalizing m cur inData with
  | nil =>
    simp only [parseLines] at h
    exact Or.inl h
  | cons line rest ih =>
    simp only [parseLines] at h
    split at h
    · rcases ih _ _ _ h with h' | ⟨l, hl, hr⟩
      · exact Or.inl h'
      · exact Or.inr ⟨l, List.mem_cons_of_mem _ hl, hr⟩
    · split at h
      · exact Or.inl h
      · split at h
        · rcases ih _ _ _ h with h' | ⟨l, hl, hr⟩
          · exact Or.inl h'
          · exact Or.inr ⟨l, List.mem_cons_of_mem _ hl, hr⟩
        · split at h
          · rcases ih _ _ _ h with h' | ⟨l, hl, hr⟩
            · exact Or.inl h'
            · exact Or.inr ⟨l, List.mem_cons_of_mem _ hl, hr⟩
          · split at h
            · rcases ih _ _ _ h with h' | ⟨l, hl, hr⟩
              · exact Or.inl h'
              · exact Or.inr ⟨l, List.mem_cons_of_mem _ hl, hr⟩
            · rcases ih _ _ _ h with h' | ⟨l, hl, hr⟩
              · rcases processLine_lookup line m cur k v h' with h'' | hC
                · exact Or.inl h''
                · exact Or.inr ⟨line, List.mem_cons_self _ _, hC.1, hC.2⟩
              · exact Or.inr ⟨l, List.mem_cons_of_mem _ hl, hr⟩

/-! ## Claims -/

/-- C1: the spec's case-insensitive fallback — `getCommonName("canis lupus")`
resolving the entry stored under `"Canis lupus"` — fails on the code: the
resolution lowercases only the query, so with the map holding only the
`"Canis lupus"` key both the exact lookup and the lowercased lookup miss and
the empty string is returned, for `getCommonName` and for a `getCommonNames`
batch alike (which therefore omits the name); the exact lookup itself works.
This contradicts the code's own comment (Try exact match first, then
case-insensitive). -/
theorem getCommonName_lowercase_fallback_misses :
    lookupCommonName [(("Canis lupus").data, ("Gray wolf").data)] (("canis lupus").data) = [] ∧
    getCommonNames [(("Canis lupus").data, ("Gray wolf").data)] [("canis lupus").data] = [] ∧
    lookupCommonName [(("Canis lupus").data, ("Gray wolf").data)] (("Canis lupus").data) =
      ("Gray wolf").data ∧
    toLowerStr (("canis lupus").data) = ("canis lupus").data := by
  decide

/-- C2: against an endpoint answering HTTP 503 on every attempt,
`fetchWithRetry` with `maxRetries = 3` makes exactly 3 attempts, waits
`1000 ms` between attempts 1 and 2 and `2000 ms` between attempts 2 and 3
(`RETRY_DELAY_MS * 2 ^ k` before 0-indexed retry `k`), records no delay
after the third attempt, and finally throws the error derived from the last
503 response, carrying its status. -/
theorem fetchWithRetry_always_503 (outcomes : Nat → AttemptOutcome)
    (h : ∀ i, outcomes i = .resp 503) :
    fetchWithRetry outcomes 3 =
      ⟨3, [1000, 2000], .error (.apiError 503)⟩ := by
  have he : outcomes = fun _ => AttemptOutcome.resp 503 := funext h
  subst he
  decide

/-- C2 witness: the always-503 endpoint instantiated concretely. -/
theorem fetchWithRetry_always_503_witness :
    fetchWithRetry (fun _ => AttemptOutcome.resp 503) 3 =
      ⟨3, [1000, 2000], .error (.apiError 503)⟩ :=
  fetchWithRetry_always_503 (fun _ => AttemptOutcome.resp 503) (fun _ => rfl)

/-- C3 counterexample: the claim's only-if direction (an attempt is retried
only when the status is ≥ 500 or the attempt threw) is false at a concrete
input: an endpoint always answering HTTP 300 — a status neither accepted
(not 2xx, not 4xx) nor ≥ 500, with no throw — is retried until the attempts
are exhausted instead of being returned to the caller. -/
theorem fetchWithRetry_retries_on_300 :
    fetchWithRetry (fun _ => AttemptOutcome.resp 300) 3 =
      ⟨3, [1000, 2000], .error (.apiError 300)⟩ ∧
    ¬ 500 ≤ 300 ∧ acceptResponse 300 = false := by
  decide

/-- C3 amended: a 2xx or 4xx response is returned to the caller immediately
and as-is, with zero further attempts; an attempt is retried exactly when
its response is not accepted — its status outside both the 2xx and the 4xx
ranges, which includes 1xx/3xx statuses and not only ≥ 500 — or the attempt
threw, appending the backoff delay when further attempts remain. -/
theorem fetchWithRetry_accept_and_retry :
    (∀ (outcomes : Nat → AttemptOutcome) (r attempt : Nat)
        (lastError : Option RetryError) (delays : List Nat) (s : Nat),
      outcomes attempt = .resp s → acceptResponse s = true →
        retryLoop outcomes (r + 1) attempt lastError delays =
          ⟨attempt + 1, delays, .ok s⟩) ∧
    (∀ (outcomes : Nat → AttemptOutcome) (r attempt : Nat)
        (lastError : Option RetryError) (delays : List Nat) (s : Nat),
      outcomes attempt = .resp s → acceptResponse s = false → 0 < r →
        retryLoop outcomes (r + 1) attempt lastError delays =
          retryLoop outcomes r (attempt + 1) (some (.apiError s))
            (delays ++ [RETRY_DELAY_MS * 2 ^ attempt])) ∧
    (∀ (outcomes : Nat → AttemptOutcome) (r attempt : Nat)
        (lastError : Option RetryError) (delays : List Nat),
      outcomes attempt = .thrown → 0 < r →
        retryLoop outcomes (r + 1) attempt lastError delays =
          retryLoop outcomes r (attempt + 1) (some .thrownError)
            (delays ++ [RETRY_DELAY_MS * 2 ^ attempt])) ∧
    (∀ s : Nat, acceptResponse s = true ↔ ((200 ≤ s ∧ s < 300) ∨ (400 ≤ s ∧ s < 500))) := by
  refine ⟨?_, ?_, ?_, ?_⟩
  · intro outcomes r attempt lastError delays s h1 h2
    simp [retryLoop, h1, h2]
  · intro outcomes r attempt lastError delays s h1 h2 h3
    simp [retryLoop, h1, h2, h3]
  · intro outcomes r attempt lastError delays h1 h2
    simp [retryLoop, h1, h2]
  · intro s
    simp [acceptResponse, respOk]

/-- C3 witness: a single HTTP 404 response is accepted at the first attempt:
returned as-is, no delay recorded, two allowed attempts left unused. -/
theorem fetchWithRetry_accept_and_retry_witness :
    fetchWithRetry (fun _ => AttemptOutcome.resp 404) 3 = ⟨1, [], .ok 404⟩ := by
  have h := fetchWithRetry_accept_and_retry.1 (fun _ => AttemptOutcome.resp 404)
    2 0 none [] 404 rfl (by decide)
  simpa [fetchWithRetry] using h

/-- C4 counterexample: the claim's iff (an entry is expired exactly when
`now - timestamp > ttl`) fails at `ttl = 0`: the entry is written with
`ttl = 0`, the age `100 - 5` exceeds that ttl, yet `getCachedData` still
returns the value (the falsy stored ttl is replaced by infinity at read
time) instead of returning no value and removing the entry. -/
theorem cache_ttl_zero_counterexample :
    (getCachedData (setCachedData (fun _ => none : CStore Nat Nat) 1 42 (some 0) 5) 1 100).1 =
      some 42 ∧
    (100 : Int) - 5 > 0 := by
  decide

/-- C4 amended: for entries written by `setCachedData` with a positive ttl
and the write-time timestamp positive (as a real clock reading is),
`getCachedData` returns the stored value while `now - timestamp ≤ ttl` and,
once `now - timestamp > ttl`, returns no value and removes the entry from
the underlying store; a missing or malformed entry yields no value, with
the store untouched, rather than an error; an entry written without a ttl
never expires.  (For a falsy `ttl = 0` the entry never expires as well —
see the counterexample — rather than satisfying the claim's iff.) -/
theorem cache_ttl_lifecycle :
    (∀ (K V : Type) (_inst : DecidableEq K) (st : CStore K V) (key : K) (v : V)
        (ttl t0 now : Nat), 0 < ttl → (now : Int) - (t0 : Int) ≤ (ttl : Int) →
      (getCachedData (setCachedData st key v (some ttl) t0) key now).1 = some v) ∧
    (∀ (K V : Type) (_inst : DecidableEq K) (st : CStore K V) (key : K) (v : V)
        (ttl t0 now : Nat), 0 < ttl → 0 < t0 → (now : Int) - (t0 : Int) > (ttl : Int) →
      (getCachedData (setCachedData st key v (some ttl) t0) key now).1 = none ∧
      (getCachedData (setCachedData st key v (some ttl) t0) key now).2 key = none) ∧
    (∀ (K V : Type) (_inst : DecidableEq K) (st : CStore K V) (key : K) (now : Nat),
      st key = none → getCachedData st key now = (none, st)) ∧
    (∀ (K V : Type) (_inst : DecidableEq K) (st : CStore K V) (key : K) (now : Nat),
      st key = some .malformed → getCachedData st key now = (none, st)) ∧
    (∀ (K V : Type) (_inst : DecidableEq K) (st : CStore K V) (key : K) (v : V)
        (t0 now : Nat),
      (getCachedData (setCachedData st key v none t0) key now).1 = some v) := by
  refine ⟨?_, ?_, ?_, ?_, ?_⟩
  · intro K V _inst st key v ttl t0 now hpos hle
    by_cases ht0 : t0 = 0
    · simp [getCachedData, setCachedData, storeSet, ht0]
    · have httl : ¬ ttl = 0 := by omega
      have hage : ¬ ((now : Int) - (t0 : Int) > (ttl : Int)) := by omega
      simp [getCachedData, setCachedData, storeSet, ht0, httl, hage]
  · intro K V _inst st key v ttl t0 now hpos ht0 hage
    have ht0' : ¬ t0 = 0 := by omega
    have httl : ¬ ttl = 0 := by omega
    simp [getCachedData, setCachedData, storeSet, storeRemove, ht0', httl, hage]
  · intro K V _inst st key now h
    simp [getCachedData, h]
  · intro K V _inst st key now h
    simp [getCachedData, h]
  · intro K V _inst st key v t0 now
    by_cases ht0 : t0 = 0 <;> simp [getCachedData, setCachedData, storeSet, ht0]

/-- C4 witness: with `ttl = 100` written at time 5, a read at 55 returns the
value, a read at 200 returns no value and leaves the raw store without the
key, a missing key reads as no value, and a no-ttl entry survives a read at
an arbitrarily late time. -/
theorem cache_ttl_lifecycle_witness :
    (getCachedData (setCachedData (fun _ => none : CStore Nat Nat) 1 42 (some 100) 5) 1 55).1 =
      some 42 ∧
    (getCachedData (setCachedData (fun _ => none : CStore Nat Nat) 1 42 (some 100) 5) 1 200).1 =
      none ∧
    (getCachedData (setCachedData (fun _ => none : CStore Nat Nat) 1 42 (some 100) 5) 1 200).2 1 =
      none ∧
    getCachedData (fun _ => none : CStore Nat Nat) 1 0 = (none, (fun _ => none)) ∧
    (getCachedData (setCachedData (fun _ => none : CStore Nat Nat) 1 42 none 5) 1 999999).1 =
      some 42 :=
  ⟨cache_ttl_lifecycle.1 Nat Nat inferInstance (fun _ => none) 1 42 100 5 55
      (by decide) (by decide),
   (cache_ttl_lifecycle.2.1 Nat Nat inferInstance (fun _ => none) 1 42 100 5 200
      (by decide) (by decide) (by decide)).1,
   (cache_ttl_lifecycle.2.1 Nat Nat inferInstance (fun _ => none) 1 42 100 5 200
      (by decide) (by decide) (by decide)).2,
   cache_ttl_lifecycle.2.2.1 Nat Nat inferInstance (fun _ => none) 1 0 rfl,
   cache_ttl_lifecycle.2.2.2.2 Nat Nat inferInstance (fun _ => none) 1 42 5 999999⟩

/-- C5: every binding of the parse result derives from an explicit `C=`
line of the input (its value is the trimmed text after that line's `C=`),
so a record with an `N=` line (and an `S=` line) but no `C=` line
contributes no entry; in particular the spec's `Testus exemplus` record
with no `C=` line leaves the map without an entry for it. -/
theorem parser_requires_C_line :
    (∀ (text k v : Str), mapGet (parseUniProtSpecList text) k = some v →
      ∃ line, line ∈ splitLines text ∧ listStartsWith cMark (trimChars line) = true ∧
        v = trimChars (List.drop 2 (trimChars line))) ∧
    mapGet (parseUniProtSpecList sampleNoCText) (("Testus exemplus").data) = none := by
  constructor
  · intro text k v h
    rcases parseLines_lookup (splitLines text) [] [] false k v
        (by simpa [parseUniProtSpecList] using h) with h' | hex
    · simp [mapGet] at h'
    · exact hex
  · decide

/-- C5 witness: the same record with a `C=` line does produce an entry, and
its value is attributed to a `C=` input line; the `C=`-less variant has no
entry for `Testus exemplus`. -/
theorem parser_requires_C_line_witness :
    (∃ line, line ∈ splitLines sampleWithCText ∧
      listStartsWith cMark (trimChars line) = true ∧
      ("Common tester").data = trimChars (List.drop 2 (trimChars line))) ∧
    mapGet (parseUniProtSpecList sampleNoCText) (("Testus exemplus").data) = none :=
  ⟨parser_requires_C_line.1 sampleWithCText (("Testus exemplus").data)
      (("Common tester").data) (by decide),
   parser_requires_C_line.2⟩

/-- C6: every entry derives only from lines between the two section
headers: lines before the real-organism-codes header are ignored (they
leave the parse of the remaining lines unchanged), and a line containing
the virtual-codes header terminates parsing immediately with the map built
so far, so any content after it — even syntactically valid — is excluded. -/
theorem parser_section_bounds :
    (∀ (pre rest : List Str) (m : SpecMap) (cur : Str),
      (∀ l ∈ pre, strContains l realMarker = false ∧ strContains l virtualMarker = false) →
      parseLines (pre ++ rest) m cur false = parseLines rest m cur false) ∧
    (∀ (line : Str) (post : List Str) (m : SpecMap) (cur : Str) (inData : Bool),
      strContains line realMarker = false → strContains line virtualMarker = true →
      parseLines (line :: post) m cur inData = m) := by
  constructor
  · intro pre rest m cur
    induction pre generalizing m cur with
    | nil => intro _; rfl
    | cons l pre' ih =>
      intro hpre
      have h1 := (hpre l (List.mem_cons_self _ _)).1
      have h2 := (hpre l (List.mem_cons_self _ _)).2
      have ih' := ih m cur (fun l2 hl2 => hpre l2 (List.mem_cons_of_mem _ hl2))
      simp only [List.cons_append, parseLines, h1, h2]
      simpa using ih'
  · intro line post m cur inData h1 h2
    simp [parseLines, h1, h2]

/-- C6 witness: junk lines before the header leave the parse unchanged, and
a virtual-codes header line discards an arbitrarily valid remainder. -/
theorem parser_section_bounds_witness :
    parseLines ([("junk before the header").data, ("BBBBB V 000002: N=Ignored early").data]
        ++ splitLines sampleWithCText) [] [] false =
      parseLines (splitLines sampleWithCText) [] [] false ∧
    parseLines [("  (2) Virtual codes  ").data,
        ("AAAAA V 000001: N=Testus exemplus").data,
        ("      C=Common tester").data] [] [] true = [] :=
  ⟨parser_section_bounds.1
      [("junk before the header").data, ("BBBBB V 000002: N=Ignored early").data]
      (splitLines sampleWithCText) [] [] (by decide),
   parser_section_bounds.2 (("  (2) Virtual codes  ").data)
      [("AAAAA V 000001: N=Testus exemplus").data, ("      C=Common tester").data]
      [] [] true (by decide) (by decide)⟩

/-- C7: after a session-cache miss, every failure mode of
`loadUniProtSpeciesList` — a thrown fetch, a non-ok response, a body that is
empty or under 1000 characters, and a parse yielding zero entries — resolves
to the empty map instead of propagating an error (in the embedding the
loader is a total function into maps; the `try` body's `Except` failures are
all collapsed by the `catch`). -/
theorem loader_downgrades_failures :
    (∀ (st : CStore Str SpecMap) (now : Nat),
      (getCachedData st uniprotKey now).1 = none →
      (loadUniProtSpeciesList st now .thrown).1 = []) ∧
    (∀ (st : CStore Str SpecMap) (now status : Nat) (text : Str),
      (getCachedData st uniprotKey now).1 = none →
      (loadUniProtSpeciesList st now (.resp false status text)).1 = []) ∧
    (∀ (st : CStore Str SpecMap) (now status : Nat) (text : Str),
      (getCachedData st uniprotKey now).1 = none → text.length < 1000 →
      (loadUniProtSpeciesList st now (.resp true status text)).1 = []) ∧
    (∀ (st : CStore Str SpecMap) (now status : Nat) (text : Str),
      (getCachedData st uniprotKey now).1 = none → parseUniProtSpecList text = [] →
      (loadUniProtSpeciesList st now (.resp true status text)).1 = []) := by
  refine ⟨?_, ?_, ?_, ?_⟩
  · intro st now h
    cases hg : getCachedData st uniprotKey now with
    | mk o st1 =>
      rw [hg] at h
      simp at h
      subst h
      simp [loadUniProtSpeciesList, hg, loadBody]
  · intro st now status text h
    cases hg : getCachedData st uniprotKey now with
    | mk o st1 =>
      rw [hg] at h
      simp at h
      subst h
      simp [loadUniProtSpeciesList, hg, loadBody]
  · intro st now status text h hlen
    cases hg : getCachedData st uniprotKey now with
    | mk o st1 =>
      rw [hg] at h
      simp at h
      subst h
      simp [loadUniProtSpeciesList, hg, loadBody, Or.inr hlen]
  · intro st now status text h hparse
    cases hg : getCachedData st uniprotKey now with
    | mk o st1 =>
      rw [hg] at h
      simp at h
      subst h
      by_cases hsmall : text = [] ∨ text.length < 1000
      · simp [loadUniProtSpeciesList, hg, loadBody, hsmall]
      · simp [loadUniProtSpeciesList, hg, loadBody, hsmall, hparse]

/-- C7 witness: the four failure modes on an empty session store. -/
theorem loader_downgrades_failures_witness :
    (loadUniProtSpeciesList (fun _ => none) 0 .thrown).1 = [] ∧
    (loadUniProtSpeciesList (fun _ => none) 0 (.resp false 503 sampleBigText)).1 = [] ∧
    (loadUniProtSpeciesList (fun _ => none) 0 (.resp true 200 (("tiny").data))).1 = [] ∧
    (loadUniProtSpeciesList (fun _ => none) 0 (.resp true 200 sampleNoCText)).1 = [] :=
  ⟨loader_downgrades_failures.1 (fun _ => none) 0 rfl,
   loader_downgrades_failures.2.1 (fun _ => none) 0 503 sampleBigText rfl,
   loader_downgrades_failures.2.2.1 (fun _ => none) 0 200 (("tiny").data) rfl (by decide),
   loader_downgrades_failures.2.2.2 (fun _ => none) 0 200 sampleNoCText rfl (by decide)⟩

/-- C8: the constant the loader persists successful parses under is
`500 * 60 * 60 * 1000` ms — 500 hours, more than 20 times the 24-hour-class
value `24 * 60 * 60 * 1000` ms that the spec (and the constant's own source
comment, Cache TTL: 24 hours) describe; the persistence itself does happen
at write time before the map is returned, as shown on a concrete
successful load. -/
theorem uniprot_ttl_is_500_hours :
    UNIPROT_CACHE_TTL = 1800000000 ∧
    24 * 60 * 60 * 1000 = 86400000 ∧
    20 * (24 * 60 * 60 * 1000) < UNIPROT_CACHE_TTL ∧
    (loadUniProtSpeciesList (fun _ => none) 7 (.resp true 200 sampleBigText)).2 uniprotKey =
      some (.entry (parseUniProtSpecList sampleBigText) (some 7) (some UNIPROT_CACHE_TTL)) ∧
    (loadUniProtSpeciesList (fun _ => none) 7 (.resp true 200 sampleBigText)).1 =
      [(("Testus exemplus").data, ("Common tester").data)] := by
  refine ⟨rfl, rfl, by decide, by decide, by decide⟩

/-- The fresh module state satisfies the single-flight invariant. -/
theorem SFInv_init (M : SpecMap) (K : Nat) :
    SFInv M K ⟨none, false, 0, List.replicate K .start⟩ := by
  refine ⟨List.length_replicate K _, Or.inl ⟨rfl, rfl, rfl, ?_⟩⟩
  intro c hc
  exact List.eq_of_mem_replicate hc

/-- Every schedule event preserves the single-flight invariant. -/
theorem SFInv_step (M : SpecMap) (K : Nat) (s : SFState) (e : SFEvent)
    (h : SFInv M K s) : SFInv M K (applyEvent M s e) := by
  obtain ⟨hlen, hcase⟩ := h
  cases e with
  | resolve =>
    rcases hcase with ⟨h1, h2, h3, h4⟩ | ⟨h1, h2, h3, h4⟩ | ⟨h1, h2, h3, h4⟩
    · have hs : applyEvent M s .resolve = s := by
        simp [applyEvent, stepResolve, h3]
      rw [hs]
      exact ⟨hlen, Or.inl ⟨h1, h2, h3, h4⟩⟩
    · have hs : applyEvent M s .resolve =
          { s with speciesCache := some M, cachePending := false } := by
        simp [applyEvent, stepResolve, h2]
      rw [hs]
      exact ⟨hlen, Or.inr (Or.inr ⟨h1, rfl, rfl,
        fun c hc => (h4 c hc).imp id Or.inl⟩)⟩
    · have hs : applyEvent M s .resolve = s := by
        simp [applyEvent, stepResolve, h2]
      rw [hs]
      exact ⟨hlen, Or.inr (Or.inr ⟨h1, h2, h3, h4⟩)⟩
  | caller i =>
    cases hget : s.callers[i]? with
    | none =>
      have hs : applyEvent M s (.caller i) = s := by
        simp [applyEvent, stepCaller, hget]
      rw [hs]
      exact ⟨hlen, hcase⟩
    | some c =>
      have hmem : c ∈ s.callers := List.getElem?_mem hget
      rcases hcase with ⟨h1, h2, h3, h4⟩ | ⟨h1, h2, h3, h4⟩ | ⟨h1, h2, h3, h4⟩
      · have hc : c = .start := h4 c hmem
        subst hc
        have hs : applyEvent M s (.caller i) =
            { s with cachePending := true, loadCount := s.loadCount + 1,
                     callers := s.callers.set i .waiting } := by
          simp [applyEvent, stepCaller, hget, h2, h3]
        rw [hs]
        refine ⟨?_, Or.inr (Or.inl ⟨?_, rfl, h2, ?_⟩)⟩
        · show (s.callers.set i _).length = K
          rw [List.length_set]
          exact hlen
        · show s.loadCount + 1 = 1
          omega
        · intro c' hc'
          rcases List.mem_or_eq_of_mem_set hc' with hin | he
          · exact Or.inl (h4 c' hin)
          · exact Or.inr he
      · rcases h4 c hmem with hc | hc
        · subst hc
          have hs : applyEvent M s (.caller i) =
              { s with callers := s.callers.set i .waiting } := by
            simp [applyEvent, stepCaller, hget, h3, h2]
          rw [hs]
          refine ⟨?_, Or.inr (Or.inl ⟨h1, h2, h3, ?_⟩)⟩
          · show (s.callers.set i _).length = K
            rw [List.length_set]
            exact hlen
          · intro c' hc'
            rcases List.mem_or_eq_of_mem_set hc' with hin | he
            · exact h4 c' hin
            · exact Or.inr he
        · subst hc
          have hs : applyEvent M s (.caller i) = s := by
            simp [applyEvent, stepCaller, hget, h3]
          rw [hs]
          exact ⟨hlen, Or.inr (Or.inl ⟨h1, h2, h3, h4⟩)⟩
      · have hall : ∀ c' ∈ s.callers.set i (CallerPhase.done M),
            c' = .start ∨ c' = .waiting ∨ c' = .done M := by
          intro c' hc'
          rcases List.mem_or_eq_of_mem_set hc' with hin | he
          · exact h4 c' hin
          · exact Or.inr (Or.inr he)
        rcases h4 c hmem with hc | hc | hc
        · subst hc
          have hs : applyEvent M s (.caller i) =
              { s with callers := s.callers.set i (.done M) } := by
            simp [applyEvent, stepCaller, hget, h3]
          rw [hs]
          refine ⟨?_, Or.inr (Or.inr ⟨h1, h2, h3, hall⟩)⟩
          show (s.callers.set i _).length = K
          rw [List.length_set]
          exact hlen
        · subst hc
          have hs : applyEvent M s (.caller i) =
              { s with callers := s.callers.set i (.done M) } := by
            simp [applyEvent, stepCaller, hget, h3]
          rw [hs]
          refine ⟨?_, Or.inr (Or.inr ⟨h1, h2, h3, hall⟩)⟩
          show (s.callers.set i _).length = K
          rw [List.length_set]
          exact hlen
        · subst hc
          have hs : applyEvent M s (.caller i) = s := by
            simp [applyEvent, stepCaller, hget]
          rw [hs]
          exact ⟨hlen, Or.inr (Or.inr ⟨h1, h2, h3, h4⟩)⟩

/-- The invariant holds after any schedule. -/
theorem SFInv_run (M : SpecMap) (K : Nat) (evs : List SFEvent) (s : SFState)
    (h : SFInv M K s) : SFInv M K (evs.foldl (applyEvent M) s) := by
  induction evs generalizing s with
  | nil => exact h
  | cons e rest ih => exact ih _ (SFInv_step M K s e h)

/-- C9: for any `K ≥ 2` callers started before the species list has ever
been loaded, under every cooperative interleaving in which all callers
eventually return, exactly one underlying `loadUniProtSpeciesList` call
occurred — the first caller installs the shared pending promise atomically
before yielding and every later caller joins it — and all `K` callers
resolve to the same map, the one the single load produced. -/
theorem single_flight (M : SpecMap) (K : Nat) (evs : List SFEvent)
    (hK : 2 ≤ K)
    (hdone : ∀ c ∈ (runEvents M K evs).callers, phaseDone c = true) :
    (runEvents M K evs).loadCount = 1 ∧
      ∀ c ∈ (runEvents M K evs).callers, c = .done M := by
  have hinv : SFInv M K (runEvents M K evs) :=
    SFInv_run M K evs _ (SFInv_init M K)
  obtain ⟨hlen, hcase⟩ := hinv
  have hne : 0 < (runEvents M K evs).callers.length := by omega
  obtain ⟨c0, hc0⟩ := List.exists_mem_of_length_pos hne
  rcases hcase with ⟨h1, h2, h3, h4⟩ | ⟨h1, h2, h3, h4⟩ | ⟨h1, h2, h3, h4⟩
  · have := hdone c0 hc0
    rw [h4 c0 hc0] at this
    simp [phaseDone] at this
  · have hd := hdone c0 hc0
    rcases h4 c0 hc0 with hc | hc <;> rw [hc] at hd <;> simp [phaseDone] at hd
  · refine ⟨h1, fun c hc => ?_⟩
    have hd := hdone c hc
    rcases h4 c hc with h' | h' | h'
    · rw [h'] at hd
      simp [phaseDone] at hd
    · rw [h'] at hd
      simp [phaseDone] at hd
    · exact h'

/-- C9 witness: two callers interleaved with the load's resolution — both
step in before resolution, then resolve, then both resume — finish with one
load performed and both holding the same map. -/
theorem single_flight_witness :
    (runEvents [(("a").data, ("b").data)] 2
        [.caller 0, .caller 1, .resolve, .caller 1, .caller 0]).loadCount = 1 ∧
      ∀ c ∈ (runEvents [(("a").data, ("b").data)] 2
        [.caller 0, .caller 1, .resolve, .caller 1, .caller 0]).callers,
        c = .done [(("a").data, ("b").data)] :=
  single_flight [(("a").data, ("b").data)] 2
    [.caller 0, .caller 1, .resolve, .caller 1, .caller 0] (by decide) (by decide)

/-- C10: an entry stored with a falsy ttl — `options.ttl` equal to `0`, or
absent — is read back with an unbounded lifetime: at read time
`data._ttl || Infinity` replaces the falsy stored ttl by infinity, so the
entry never expires (rather than expiring immediately), at every read
time. -/
theorem cache_falsy_ttl_never_expires :
    ∀ (K V : Type) (_inst : DecidableEq K) (st : CStore K V) (key : K) (v : V)
      (t0 now : Nat),
      (getCachedData (setCachedData st key v (some 0) t0) key now).1 = some v ∧
      (getCachedData (setCachedData st key v none t0) key now).1 = some v := by
  intro K V _inst st key v t0 now
  constructor <;>
    (by_cases ht0 : t0 = 0 <;> simp [getCachedData, setCachedData, storeSet, ht0])
